import Mathlib

/-!
Shallow embedding of the mempool-sentinel ingestion core.

The definitions below are translated from the Rust sources:
  * `src/eth.rs`      — normalizer, block ingestor, pending sampler
  * `src/storage/mod.rs` — SQLite-backed storage engine (schema + queries)
  * `src/config.rs`   — address-filter parsing
  * `src/models.rs`   — data model

Machine integers are modelled as `Nat`/`Int` with explicit bounds where
overflow or narrowing matters.  Chain-client calls (`ethers` provider) and
SQLite are external collaborators; their outcomes are supplied by explicit
oracle structures so that the control flow of the Rust code can be embedded
faithfully.  Strings use Lean `String`; the few Rust string helpers the code
relies on (`split(',')`, `trim`, `to_lowercase`, hex formatting of `H160` /
`H256`, decimal formatting of `U256`) are modelled on the character list,
faithful to their behaviour on the ASCII data that addresses and decimal
numbers consist of.
-/

namespace MempoolSentinel

/-! ## Data model (src/models.rs) -/

/-- `models.rs::NormalizedTx`.  The Rust field `from` is a Lean keyword, so it
is named `from_addr` here, and the Rust field `to` is named `to_addr` (the
storage column names used in `storage/mod.rs`). -/
structure NormalizedTx where
  hash : String
  from_addr : String
  to_addr : Option String
  value_wei : String
  gas : Int
  gas_price_wei : Option String
  max_fee_per_gas_wei : Option String
  nonce : Int
  block_number : Option Int
  timestamp : Option Int
  status : Option String
deriving DecidableEq, Repr

/-- `models.rs::BlockInfo`. -/
structure BlockInfo where
  number : Int
  hash : String
  timestamp : Int
deriving DecidableEq, Repr

/-- `models.rs::GasStats`.  `avg` is an SQLite `AVG`, a numeric mean; it is
modelled exactly (as a rational) rather than by IEEE doubles. -/
structure GasStats where
  min : Int
  max : Int
  avg : ℚ
deriving DecidableEq, Repr

/-! ## Raw chain-client data (ethers types used by src/eth.rs)

`H160`/`H256` are 160/256-bit hashes and `U256` a 256-bit unsigned integer;
all are modelled as `Nat` (bounded by the claims that need the bound). -/

/-- The fields of `ethers_core::types::Transaction` that `normalize_tx` /
`normalize_pending_tx` read. -/
structure Transaction where
  hash : Nat
  from_addr : Nat
  to_addr : Option Nat
  value : Nat
  gas : Nat
  gas_price : Option Nat
  max_fee_per_gas : Option Nat
  nonce : Nat
deriving DecidableEq, Repr

/-- `ethers_core::types::Block<Transaction>` — the fields `normalize_block`
reads. -/
structure RawBlockFull where
  number : Option Nat
  hash : Option Nat
  timestamp : Nat
  transactions : List Transaction
deriving DecidableEq, Repr

/-- `ethers_core::types::Block<H256>` — the hash-only block used by
the fallback path of `fetch_recent_blocks`. -/
structure RawBlockHashes where
  number : Option Nat
  hash : Option Nat
  timestamp : Nat
  transactions : List Nat
deriving DecidableEq, Repr

/-! ## String helpers -/

/-- Lowercase hex digits as produced by Rust's `{:x}` formatting;
`Nat.digitChar` yields `0-9a-f` for values below 16. -/
def hexDigits (n : Nat) : List Char := Nat.toDigits 16 n

/-- Fixed-width lowercase hex with `0x` prefix: `format!("0x{:x}", v)` on a
fixed-width hash type (`H160` pads to 40 nibbles, `H256` to 64). -/
def hex0xPad (width n : Nat) : String :=
  let ds := hexDigits n
  String.mk ('0' :: 'x' :: (List.replicate (width - ds.length) '0' ++ ds))

/-- `eth.rs::address_to_lower_hex`: `format!("0x{:x}", addr)` on an `H160`. -/
def address_to_lower_hex (addr : Nat) : String := hex0xPad 40 addr

/-- `format!("0x{:x}", hash)` on an `H256`. -/
def h256_to_lower_hex (h : Nat) : String := hex0xPad 64 h

/-- `U256::to_string()`: decimal representation. -/
def u256_to_string (n : Nat) : String := toString n

/-! ## Integer narrowing (src/eth.rs) -/

/-- `eth.rs::u256_to_i64_opt`: `U256 -> u128` (`try_into`, fails at `2^128`)
then `i64::try_from` (fails above `i64::MAX`). -/
def u256_to_i64_opt (value : Nat) : Option Int :=
  if value < 2 ^ 128 then
    if value ≤ 2 ^ 63 - 1 then some (Int.ofNat value) else none
  else none

/-- `eth.rs::u256_to_i64_lossy`: saturate to `i64::MAX` when the optional
narrowing fails. -/
def u256_to_i64_lossy (value : Nat) : Int :=
  (u256_to_i64_opt value).getD (2 ^ 63 - 1)

/-- Rust `as` cast from `u64` to `i64` (two's-complement wrap), used for block
numbers and timestamps in `eth.rs`. -/
def u64_as_i64 (n : Nat) : Int :=
  if n % 2 ^ 64 < 2 ^ 63 then Int.ofNat (n % 2 ^ 64)
  else Int.ofNat (n % 2 ^ 64) - 2 ^ 64

/-! ## Normalizer (src/eth.rs) -/

/-- `eth.rs::normalize_tx`: confirmed-transaction normalization. -/
def normalize_tx (tx : Transaction) (block_number timestamp : Int) : NormalizedTx :=
  { hash := h256_to_lower_hex tx.hash
    from_addr := address_to_lower_hex tx.from_addr
    to_addr := tx.to_addr.map address_to_lower_hex
    value_wei := u256_to_string tx.value
    gas := u256_to_i64_lossy tx.gas
    gas_price_wei := tx.gas_price.map u256_to_string
    max_fee_per_gas_wei := tx.max_fee_per_gas.map u256_to_string
    nonce := u256_to_i64_lossy tx.nonce
    block_number := some block_number
    timestamp := some timestamp
    status := none }

/-- `eth.rs::normalize_pending_tx`: pending-transaction normalization. -/
def normalize_pending_tx (tx : Transaction) : NormalizedTx :=
  { hash := h256_to_lower_hex tx.hash
    from_addr := address_to_lower_hex tx.from_addr
    to_addr := tx.to_addr.map address_to_lower_hex
    value_wei := u256_to_string tx.value
    gas := u256_to_i64_lossy tx.gas
    gas_price_wei := tx.gas_price.map u256_to_string
    max_fee_per_gas_wei := tx.max_fee_per_gas.map u256_to_string
    nonce := u256_to_i64_lossy tx.nonce
    block_number := none
    timestamp := none
    status := none }

/-- `eth.rs::normalize_block`: `Block<Transaction>` with both `number` and
`hash` present; `None` otherwise. -/
def normalize_block (block : RawBlockFull) : Option (BlockInfo × List NormalizedTx) := do
  let number ← block.number
  let hash ← block.hash
  let numberI : Int := u64_as_i64 number
  let timestamp : Int := u64_as_i64 block.timestamp
  let block_info : BlockInfo :=
    { number := numberI, hash := h256_to_lower_hex hash, timestamp := timestamp }
  let txs := block.transactions.map (fun tx => normalize_tx tx numberI timestamp)
  some (block_info, txs)

/-! ## Address filter (src/config.rs, src/eth.rs) -/

/-- ASCII lowercase of one character, the effect of Rust `to_lowercase` on the
ASCII strings addresses consist of. -/
def asciiLower (c : Char) : Char :=
  if 'A' ≤ c ∧ c ≤ 'Z' then Char.ofNat (c.toNat + 32) else c

/-- Lowercasing a whole string. -/
def lowerString (s : String) : String := String.mk (s.data.map asciiLower)

/-- ASCII whitespace, the characters Rust `trim` strips from address lists. -/
def isSpaceChar (c : Char) : Bool := c = ' ' || c = '\t' || c = '\n' || c = '\r'

/-- Rust `str::trim` (on ASCII data): strip leading and trailing whitespace. -/
def trimString (s : String) : String :=
  String.mk (((s.data.dropWhile isSpaceChar).reverse.dropWhile isSpaceChar).reverse)

/-- Rust `str::split(',')` on the character list: the comma-separated pieces,
keeping empty pieces (so `""` yields one empty piece). -/
def splitCommas : List Char → List (List Char)
  | [] => [[]]
  | c :: rest =>
    if c = ',' then [] :: splitCommas rest
    else
      match splitCommas rest with
      | g :: gs => (c :: g) :: gs
      | [] => [[c]]

/-- The comma-separated pieces of a string. -/
def splitCommasS (s : String) : List String := (splitCommas s.data).map String.mk

/-- `config.rs::parse_filter_addresses`: split on commas, trim and lowercase
each piece, drop empties.  The Rust code collects into a `HashSet`; the set is
modelled by this list, whose membership is what `include_tx` consults. -/
def parse_filter_addresses (raw : String) : List String :=
  ((splitCommasS raw).map (fun s => lowerString (trimString s))).filter
    (fun s => !s.isEmpty)

/-- `eth.rs::include_tx`: pass when no filter is configured, otherwise when the
sender or the (present) recipient is in the filter. -/
def include_tx (tx : NormalizedTx) (filters : Option (List String)) : Bool :=
  match filters with
  | some filter =>
    let from_match := filter.contains tx.from_addr
    let to_match := (tx.to_addr.map (fun addr => filter.contains addr)).getD false
    from_match || to_match
  | none => true

/-! ## Storage engine (src/storage/mod.rs)

The committed SQLite state is the pair of tables.  Write operations model the
sqlx calls: a single `INSERT ... ON CONFLICT DO NOTHING` for blocks, and for
transaction batches a `pool.begin()` transaction whose per-row inserts run on
a transaction-local copy that only becomes visible at `commit` — an error
before the commit rolls the copy back, leaving the committed state unchanged.
I/O failures of the collaborator are supplied by an explicit oracle
(`fail` / `failAt`). -/

/-- A storage-level error surfaced by sqlx. -/
inductive DbError
  | sqlxError
deriving DecidableEq, Repr

/-- The committed database state: the `blocks` and `transactions` tables. -/
structure Storage where
  blocks : List BlockInfo
  transactions : List NormalizedTx
deriving DecidableEq, Repr

/-- One `INSERT INTO transactions ... ON CONFLICT(hash) DO NOTHING` applied to
a table: keep the table when the primary key is already present. -/
def insert_tx_row (rows : List NormalizedTx) (t : NormalizedTx) : List NormalizedTx :=
  if rows.any (fun r => r.hash = t.hash) then rows else rows ++ [t]

/-- `storage/mod.rs::insert_block`: one insert-or-ignore on `block_number`;
`fail` is the oracle for an I/O error of the single statement. -/
def insert_block (st : Storage) (b : BlockInfo) (fail : Bool) :
    Option DbError × Storage :=
  if fail then (some DbError.sqlxError, st)
  else if st.blocks.any (fun r => r.number = b.number) then (none, st)
  else (none, { st with blocks := st.blocks ++ [b] })

/-- The per-row loop of `insert_transactions`, run against the uncommitted
working copy; `failAt = some i` makes the `i`-th row's `execute` return an
error, which aborts the loop before the commit. -/
def run_tx_batch (working : List NormalizedTx) (txs : List NormalizedTx)
    (failAt : Option Nat) (i : Nat) : Option (List NormalizedTx) :=
  match txs with
  | [] => some working
  | t :: rest =>
    if failAt = some i then none
    else run_tx_batch (insert_tx_row working t) rest failAt (i + 1)

/-- `storage/mod.rs::insert_transactions`: `begin`, per-row insert-or-ignore
on `hash`, `commit`.  On a row failure the transaction is dropped without
committing, so the committed state is returned unchanged. -/
def insert_transactions (st : Storage) (txs : List NormalizedTx)
    (failAt : Option Nat) : Option DbError × Storage :=
  match run_tx_batch st.transactions txs failAt 0 with
  | some working => (none, { st with transactions := working })
  | none => (some DbError.sqlxError, st)

/-! ### gasStats (src/storage/mod.rs::get_gas_stats) -/

/-- SQLite `GLOB '[0-9]*'`: the string is non-empty and its first character is
a decimal digit (`*` matches any remainder). -/
def globDigitStar (s : String) : Bool :=
  match s.data with
  | [] => false
  | c :: _ => c.isDigit

/-- The integer value of the longest leading digit run of a character list. -/
def digitPrefixVal : List Char → Nat → Nat
  | [], acc => acc
  | c :: cs, acc => if c.isDigit then digitPrefixVal cs (acc * 10 + (c.toNat - 48)) else acc

/-- SQLite `CAST(s AS INTEGER)` on the strings that pass the query's guard
(first character a digit, at most 18 characters): the value of the longest
leading digit run.  The 18-character bound keeps that value below `10^18`,
inside the 64-bit range, so no clamping arises on this domain. -/
def sqlite_cast_integer (s : String) : Int := Int.ofNat (digitPrefixVal s.data 0)

/-- Descending insertion into a descending-sorted list. -/
def insertDesc (x : Int) : List Int → List Int
  | [] => [x]
  | y :: ys => if x ≥ y then x :: y :: ys else y :: insertDesc x ys

/-- `ORDER BY block_number DESC`: a descending sort. -/
def sortDesc (l : List Int) : List Int := l.foldr insertDesc []

/-- The subquery `SELECT block_number FROM blocks ORDER BY block_number DESC
LIMIT n`. -/
def top_block_numbers (blocks : List BlockInfo) (n : Nat) : List Int :=
  (sortDesc (blocks.map (fun bi => bi.number))).take n

/-- The `WHERE` clause of `get_gas_stats`: `gas_price_wei` non-null, matching
`GLOB '[0-9]*'`, at most 18 characters, and `block_number IN` the top blocks
(SQL `IN` is not satisfied by a `NULL` `block_number`). -/
def gas_stats_row_passes (topBlocks : List Int) (t : NormalizedTx) : Bool :=
  match t.gas_price_wei, t.block_number with
  | some s, some b => globDigitStar s && s.length ≤ 18 && topBlocks.contains b
  | _, _ => false

/-- `storage/mod.rs::get_gas_stats`: `MIN`/`MAX`/`AVG` of
`CAST(gas_price_wei AS INTEGER)` over the guarded rows; all three aggregates
are `NULL` exactly when no row qualifies, which the Rust code maps to `None`. -/
def get_gas_stats (st : Storage) (last_n_blocks : Nat) : Option GasStats :=
  match (st.transactions.filter
      (gas_stats_row_passes (top_block_numbers st.blocks last_n_blocks))).map
    (fun t => sqlite_cast_integer (t.gas_price_wei.getD "")) with
  | [] => none
  | v :: vs =>
    some { min := vs.foldl (fun a b => min a b) v
           max := vs.foldl (fun a b => max a b) v
           avg := (((v :: vs).map (fun x => (x : ℚ))).sum) / ((v :: vs).length : ℚ) }

/-! ### Spec-side reformulation of the gasStats guard (for claim C2)

`gas_stats_qualifies` states, in the spec's terms, which stored transaction
contributes to the aggregate: `gasPriceWei` non-null, beginning with a digit,
at most 18 characters, and `blockNumber` among the `n` highest block numbers
present — "among the `n` highest" phrased by rank (fewer than `n` block
numbers are strictly higher) rather than by the sorted-prefix computation the
SQL performs. -/

/-- `b` is among the `n` highest of `blockNums`: it occurs there and fewer
than `n` entries are strictly greater. -/
def among_n_highest (blockNums : List Int) (n : Nat) (b : Int) : Bool :=
  blockNums.contains b && blockNums.countP (fun x => decide (b < x)) < n

/-- The spec-side row guard of `gasStats`. -/
def gas_stats_qualifies (blockNums : List Int) (n : Nat) (t : NormalizedTx) : Bool :=
  match t.gas_price_wei, t.block_number with
  | some s, some b => globDigitStar s && s.length ≤ 18 && among_n_highest blockNums n b
  | _, _ => false

/-- The cast gas prices of the qualifying rows, in table order. -/
def gas_stats_qualifying_values (st : Storage) (n : Nat) : List Int :=
  (st.transactions.filter (gas_stats_qualifies (st.blocks.map (fun bi => bi.number)) n)).map
    (fun t => sqlite_cast_integer (t.gas_price_wei.getD ""))

/-! ## Block ingestor (src/eth.rs::fetch_recent_blocks)

The `ethers` provider is an oracle: each call either fails at the RPC level
(`Except.error`, the `Err` the Rust code propagates with `?`) or succeeds with
an optional payload (`Ok(None)` when the node has no such block/transaction). -/

/-- An RPC-level error of the chain collaborator. -/
inductive RpcError
  | rpc (msg : String)
deriving DecidableEq, Repr

/-- The provider calls `fetch_recent_blocks` makes, as oracles. -/
structure ChainClient where
  get_block_number : Except RpcError Nat
  get_block_with_txs : Nat → Except RpcError (Option RawBlockFull)
  get_block : Nat → Except RpcError (Option RawBlockHashes)
  get_transaction : Nat → Except RpcError (Option Transaction)

/-- The per-transaction hydration loop of the fallback path: each
`get_transaction` error propagates (`?`); a `None` result skips just that
transaction. -/
def hydrate_txs (client : ChainClient) (number timestamp : Int) :
    List Nat → Except RpcError (List NormalizedTx)
  | [] => pure []
  | h :: rest => do
    let maybe ← client.get_transaction h
    let txs ← hydrate_txs client number timestamp rest
    match maybe with
    | some full_tx => pure (normalize_tx full_tx number timestamp :: txs)
    | none => pure txs

/-- The fallback path of the per-block loop body: fetch the hash-only block
and hydrate its transactions individually; yields `none` (skip) when the block
is absent or lacks `number`/`hash`. -/
def resolve_fallback (client : ChainClient) (num : Nat) :
    Except RpcError (Option (BlockInfo × List NormalizedTx)) := do
  let maybe_hash_block ← client.get_block num
  match maybe_hash_block with
  | some hash_block =>
    match hash_block.number, hash_block.hash with
    | some number, some hash =>
      let numberI := u64_as_i64 number
      let timestamp := u64_as_i64 hash_block.timestamp
      let txs ← hydrate_txs client numberI timestamp hash_block.transactions
      let block_info : BlockInfo :=
        { number := numberI, hash := h256_to_lower_hex hash, timestamp := timestamp }
      pure (some (block_info, txs))
    | _, _ => pure none
  | none => pure none

/-- The body of the `for num in start..=latest` loop of `fetch_recent_blocks`:
try the inline path, else the fallback. -/
def resolve_block (client : ChainClient) (num : Nat) :
    Except RpcError (Option (BlockInfo × List NormalizedTx)) := do
  let maybe_block ← client.get_block_with_txs num
  match maybe_block with
  | some block =>
    match normalize_block block with
    | some normalized => pure (some normalized)
    | none => resolve_fallback client num
  | none => resolve_fallback client num

/-- The block numbers `start..=latest` fetched for a window of `count` blocks:
`start = latest.saturating_sub(count - 1)` (Nat subtraction saturates). -/
def fetch_window (latest count : Nat) : List Nat :=
  List.range' (latest - (count - 1)) (latest - (latest - (count - 1)) + 1)

/-- One iteration of the `for num in start..=latest` loop: resolve the block,
push it onto the accumulated output when it resolved to something, skip it
when it resolved to nothing. -/
def fold_step (client : ChainClient) (out : List (BlockInfo × List NormalizedTx))
    (num : Nat) : Except RpcError (List (BlockInfo × List NormalizedTx)) := do
  let res ← resolve_block client num
  match res with
  | some nb => pure (out ++ [nb])
  | none => pure out

/-- `eth.rs::fetch_recent_blocks`: empty for `count = 0`; otherwise resolve
every block of the window in ascending order, appending each resolved block
and skipping `none` results; any `Except.error` aborts the whole fold. -/
def fetch_recent_blocks (client : ChainClient) (count : Nat) :
    Except RpcError (List (BlockInfo × List NormalizedTx)) :=
  if count = 0 then pure []
  else do
    let latest ← client.get_block_number
    (fetch_window latest count).foldlM (fold_step client) []

/-! ## Pending sampler (src/eth.rs::sample_pending)

One sampling session is a sequential loop; the collaborator outcomes it
consumes are supplied by a `SampleEnv` oracle:
  * `deadlineExpired i` — whether `deadline.saturating_duration_since(now)`
    is zero at the start of the iteration that would receive the `i`-th hash;
  * `recv i` — the outcome of the bounded wait for the `i`-th hash
    (`tokio::time::timeout(remaining, sub.next())`): timeout, stream end, or
    a hash;
  * `fetch i` — the outcome of `get_transaction` for the `i`-th received
    hash: `Ok(Some tx)`, `Ok(None)`, or `Err`;
  * `insertOk k` — whether the `k`-th `insert_transactions` call of the
    session succeeds.
`connectOk` / `subscribeOk` are the two connection steps before the loop,
whose failures abort the session with an error. -/

/-- Outcome of one bounded wait on the subscription stream. -/
inductive RecvOutcome
  | timeout
  | streamEnd
  | item (hash : Nat)
deriving DecidableEq, Repr

/-- Outcome of fetching one pending transaction by hash. -/
inductive FetchOutcome
  | found (tx : Transaction)
  | notFound
  | fetchErr
deriving DecidableEq, Repr

/-- Oracle for one sampling session's collaborator interactions. -/
structure SampleEnv where
  connectOk : Bool
  subscribeOk : Bool
  deadlineExpired : Nat → Bool
  recv : Nat → RecvOutcome
  fetch : Nat → FetchOutcome
  insertOk : Nat → Bool

/-- `eth.rs::PendingSampleStats`. -/
structure PendingSampleStats where
  received : Nat
  fetched : Nat
  inserted : Nat
  insert_errors : Nat
deriving DecidableEq, Repr

/-- The in-session state: the stats counters, the in-memory buffer, and the
trace of buffers handed to `insert_transactions` (recorded whether or not the
insert succeeded). -/
structure SampleState where
  received : Nat
  fetched : Nat
  inserted : Nat
  insert_errors : Nat
  buffer : List NormalizedTx
  flushes : List (List NormalizedTx)
deriving DecidableEq, Repr

/-- The initial session state. -/
def initSampleState : SampleState :=
  { received := 0, fetched := 0, inserted := 0, insert_errors := 0
    buffer := [], flushes := [] }

/-- `let flush_every = 100usize`. -/
def flush_every : Nat := 100

/-- One `insert_transactions(pool, &buffer)` call: on success `inserted` grows
by the buffer length, on failure `insert_errors` grows by one and the rows are
dropped; the call itself is recorded in the trace either way.  (The buffer is
not cleared here: the threshold site clears it separately, the final drain
never does — matching the Rust code.) -/
def flush_buffer (env : SampleEnv) (st : SampleState) : SampleState :=
  if env.insertOk st.flushes.length then
    { st with inserted := st.inserted + st.buffer.length
              flushes := st.flushes ++ [st.buffer] }
  else
    { st with insert_errors := st.insert_errors + 1
              flushes := st.flushes ++ [st.buffer] }

/-- The per-hash body of the sampling loop: count the hash as received, try to
fetch it (an `Err` is logged and skipped, a `None` silently skipped), filter
and buffer a successful fetch, and flush-and-clear when the buffer has reached
the threshold. -/
def process_hash (env : SampleEnv) (filters : Option (List String))
    (st : SampleState) : SampleState :=
  let st1 := { st with received := st.received + 1 }
  let st2 :=
    match env.fetch st.received with
    | FetchOutcome.found tx =>
      let st' := { st1 with fetched := st1.fetched + 1 }
      let normalized := normalize_pending_tx tx
      if include_tx normalized filters then
        { st' with buffer := st'.buffer ++ [normalized] }
      else st'
    | FetchOutcome.notFound => st1
    | FetchOutcome.fetchErr => st1
  if st2.buffer.length ≥ flush_every then
    { flush_buffer env st2 with buffer := [] }
  else st2

/-- The `while stats.received < max` loop of `sample_pending`.  `fuel` is a
structural bound on the number of remaining iterations; since every iteration
that does not break increments `received`, any `fuel ≥ max - received` gives
the exact while-loop behaviour (`sample_loop_fuel_sufficient` below). -/
def sample_loop (env : SampleEnv) (filters : Option (List String)) (max : Nat) :
    Nat → SampleState → SampleState
  | 0, st => st
  | fuel + 1, st =>
    if st.received < max then
      if env.deadlineExpired st.received then st
      else
        match env.recv st.received with
        | RecvOutcome.timeout => st
        | RecvOutcome.streamEnd => st
        | RecvOutcome.item _h =>
          let st2 := process_hash env filters st
          if st2.received ≥ max then st2
          else sample_loop env filters max fuel st2
    else st

/-- `eth.rs::sample_pending`: connect, subscribe, run the sampling loop from
the empty state, final-drain any non-empty buffer, and return the stats
(together with the trace of `insert_transactions` calls). -/
def sample_pending (env : SampleEnv) (max : Nat)
    (filters : Option (List String)) :
    Except RpcError (PendingSampleStats × List (List NormalizedTx)) :=
  if !env.connectOk then Except.error (RpcError.rpc "failed to connect to ETH_WS_URL")
  else if !env.subscribeOk then
    Except.error (RpcError.rpc "failed to subscribe to pending txs")
  else
    let st := sample_loop env filters max max initSampleState
    let st :=
      if st.buffer.isEmpty then st
      else flush_buffer env st
    Except.ok
      ({ received := st.received, fetched := st.fetched
         inserted := st.inserted, insert_errors := st.insert_errors },
       st.flushes)

/-! ## Concrete example instances used by counterexamples and witnesses -/

/-- A chain with head `1` whose block `0` fails at the RPC level on the inline
path, while block `1` resolves fine inline. -/
def exClientRpcFail : ChainClient :=
  { get_block_number := Except.ok 1
    get_block_with_txs := fun num =>
      if num = 0 then Except.error (RpcError.rpc "boom")
      else Except.ok (some ⟨some 1, some 5, 1000, []⟩)
    get_block := fun _ => Except.ok none
    get_transaction := fun _ => Except.ok none }

/-- A chain with head `1` whose block `0` is absent on both paths (both calls
succeed with nothing) while block `1` resolves inline. -/
def exClientSkip : ChainClient :=
  { get_block_number := Except.ok 1
    get_block_with_txs := fun num =>
      if num = 0 then Except.ok none
      else Except.ok (some ⟨some 1, some 5, 99, []⟩)
    get_block := fun _ => Except.ok none
    get_transaction := fun _ => Except.ok none }

/-- A one-block, one-transaction storage whose transaction's `gas_price_wei`
is the string `"5x"`: it begins with a digit but contains a non-digit. -/
def exGasStorage : Storage :=
  { blocks := [⟨1, "0xb", 0⟩]
    transactions := [{ hash := "0xt", from_addr := "0xa", to_addr := none,
                       value_wei := "0", gas := 0, gas_price_wei := some "5x",
                       max_fee_per_gas_wei := none, nonce := 0,
                       block_number := some 1, timestamp := some 0,
                       status := none }] }

/-- A sampler environment that never times out, always yields another hash,
always fetches a transaction, and whose storage always fails. -/
def exEnvDrainFail : SampleEnv :=
  { connectOk := true, subscribeOk := true
    deadlineExpired := fun _ => false
    recv := fun i => RecvOutcome.item i
    fetch := fun _ => FetchOutcome.found ⟨1, 2, none, 0, 0, none, none, 0⟩
    insertOk := fun _ => false }

/-- Like `exEnvDrainFail` but with storage that always succeeds. -/
def exEnvOk : SampleEnv :=
  { connectOk := true, subscribeOk := true
    deadlineExpired := fun _ => false
    recv := fun i => RecvOutcome.item i
    fetch := fun _ => FetchOutcome.found ⟨1, 2, none, 0, 0, none, none, 0⟩
    insertOk := fun _ => true }

/-! # Theorems -/

/-- Each loop iteration of the pending sampler increments `received` by
exactly one. -/
theorem process_hash_received (env : SampleEnv) (filters : Option (List String))
    (st : SampleState) :
    (process_hash env filters st).received = st.received + 1 := by
  unfold process_hash flush_buffer
  cases env.fetch st.received <;> dsimp only <;> (repeat' split) <;> simp

/-! ## C1 — pricing field selection -/

/-- Claim C1 (counterexample): the claim says normalization populates at most
one of `gasPriceWei` / `maxFeePerGasWei`.  On a raw transaction that carries
both a legacy `gas_price` and a fee-market `max_fee_per_gas` — the shape an
EIP-1559 transaction returned by a real node has — both normalized fields are
populated, by the confirmed and the pending variant alike. -/
theorem C1_pricing_counterexample :
    (normalize_tx ⟨1, 2, some 3, 42, 21000, some 1000, some 2000, 7⟩ 10 1234).gas_price_wei
        = some "1000" ∧
    (normalize_tx ⟨1, 2, some 3, 42, 21000, some 1000, some 2000, 7⟩ 10 1234).max_fee_per_gas_wei
        = some "2000" ∧
    (normalize_pending_tx ⟨1, 2, some 3, 42, 21000, some 1000, some 2000, 7⟩).gas_price_wei
        = some "1000" ∧
    (normalize_pending_tx ⟨1, 2, some 3, 42, 21000, some 1000, some 2000, 7⟩).max_fee_per_gas_wei
        = some "2000" := by
  decide

/-- Claim C1 (amended): normalization populates the two pricing fields
independently — `gasPriceWei` is set (to the decimal string) exactly when the
raw legacy `gas_price` field is present, and `maxFeePerGasWei` exactly when
the raw `max_fee_per_gas` field is present, in both the confirmed and the
pending variant; in particular both are populated when the raw transaction
carries both raw fields. -/
theorem C1_pricing_amended (tx : Transaction) (bn ts : Int) :
    (normalize_tx tx bn ts).gas_price_wei = tx.gas_price.map u256_to_string ∧
    (normalize_tx tx bn ts).max_fee_per_gas_wei = tx.max_fee_per_gas.map u256_to_string ∧
    (normalize_pending_tx tx).gas_price_wei = tx.gas_price.map u256_to_string ∧
    (normalize_pending_tx tx).max_fee_per_gas_wei = tx.max_fee_per_gas.map u256_to_string ∧
    ((normalize_tx tx bn ts).gas_price_wei.isSome ↔ tx.gas_price.isSome) ∧
    ((normalize_tx tx bn ts).max_fee_per_gas_wei.isSome ↔ tx.max_fee_per_gas.isSome) ∧
    ((normalize_pending_tx tx).gas_price_wei.isSome ↔ tx.gas_price.isSome) ∧
    ((normalize_pending_tx tx).max_fee_per_gas_wei.isSome ↔ tx.max_fee_per_gas.isSome) := by
  refine ⟨rfl, rfl, rfl, rfl, ?_, ?_, ?_, ?_⟩ <;>
    simp [normalize_tx, normalize_pending_tx]

/-! ## C9 — saturating 256-bit → signed-64 narrowing -/

/-- Claim C9: narrowing a raw 256-bit gas or nonce value saturates — a value
within the signed-64 range is preserved exactly, and every larger value yields
exactly `i64::MAX = 2^63 - 1`; the `gas` and `nonce` fields of both
normalization variants are produced by exactly this narrowing. -/
theorem C9_saturating_narrowing (tx : Transaction) (bn ts : Int) (value : Nat)
    (hv : value < 2 ^ 256) :
    (value ≤ 2 ^ 63 - 1 → u256_to_i64_lossy value = Int.ofNat value) ∧
    (2 ^ 63 - 1 < value → u256_to_i64_lossy value = 2 ^ 63 - 1) ∧
    (normalize_tx tx bn ts).gas = u256_to_i64_lossy tx.gas ∧
    (normalize_tx tx bn ts).nonce = u256_to_i64_lossy tx.nonce ∧
    (normalize_pending_tx tx).gas = u256_to_i64_lossy tx.gas ∧
    (normalize_pending_tx tx).nonce = u256_to_i64_lossy tx.nonce := by
  refine ⟨?_, ?_, rfl, rfl, rfl, rfl⟩
  · intro hle
    have h128 : value < 2 ^ 128 := lt_of_le_of_lt hle (by norm_num)
    unfold u256_to_i64_lossy u256_to_i64_opt
    rw [if_pos h128, if_pos hle]
    rfl
  · intro hgt
    unfold u256_to_i64_lossy u256_to_i64_opt
    by_cases h128 : value < 2 ^ 128
    · rw [if_pos h128, if_neg (Nat.not_le.mpr hgt)]
      rfl
    · rw [if_neg h128]
      rfl

/-- Claim C9 (witness): `2^64` exceeds the signed-64 range and narrows to
`2^63 - 1`. -/
theorem C9_saturating_narrowing_witness :
    u256_to_i64_lossy (2 ^ 64) = 2 ^ 63 - 1 :=
  (C9_saturating_narrowing ⟨0, 0, none, 0, 0, none, none, 0⟩ 0 0 (2 ^ 64)
    (by norm_num)).2.1 (by norm_num)

/-! ## C8 — pending-sampler address filter -/

/-- `Nat.digitChar` yields a lowercase hex digit below 16. -/
theorem digitChar_lt16_not_upper : ∀ x, x < 16 → (Nat.digitChar x).isUpper = false := by
  decide

/-- Hex rendering via `Nat.toDigitsCore` only ever prepends hex digits to its
accumulator. -/
theorem toDigitsCore16_not_upper :
    ∀ (fuel n : Nat) (ds : List Char), (∀ c ∈ ds, c.isUpper = false) →
      ∀ c ∈ Nat.toDigitsCore 16 fuel n ds, c.isUpper = false := by
  intro fuel
  induction fuel with
  | zero =>
    intro n ds h c hc
    exact h c hc
  | succ fuel ih =>
    intro n ds h c hc
    have hdig : (Nat.digitChar (n % 16)).isUpper = false :=
      digitChar_lt16_not_upper _ (Nat.mod_lt _ (by norm_num))
    unfold Nat.toDigitsCore at hc
    dsimp only at hc
    split at hc
    · rcases List.mem_cons.mp hc with rfl | hmem
      · exact hdig
      · exact h c hmem
    · refine ih (n / 16) (Nat.digitChar (n % 16) :: ds) ?_ c hc
      intro c' hc'
      rcases List.mem_cons.mp hc' with rfl | hmem
      · exact hdig
      · exact h c' hmem

/-- The `0x`-prefixed padded hex strings the normalizer produces contain no
uppercase character. -/
theorem hex0xPad_not_upper (w n : Nat) :
    ∀ c ∈ (hex0xPad w n).data, c.isUpper = false := by
  intro c hc
  simp only [hex0xPad, hexDigits, Nat.toDigits, String.data] at hc
  rcases List.mem_cons.mp hc with rfl | hc
  · decide
  rcases List.mem_cons.mp hc with rfl | hc
  · decide
  rcases List.mem_append.mp hc with hc | hc
  · rw [List.eq_of_mem_replicate hc]
    decide
  · exact toDigitsCore16_not_upper (n + 1) n [] (by simp) c hc

/-- Every entry of a parsed filter is the lowercased trim of one
comma-separated piece of the raw input and is non-empty. -/
theorem mem_parse_filter_addresses (raw : String) :
    ∀ s ∈ parse_filter_addresses raw,
      s ≠ "" ∧ ∃ piece ∈ splitCommasS raw, s = lowerString (trimString piece) := by
  intro s hs
  simp only [parse_filter_addresses, List.mem_filter, List.mem_map] at hs
  obtain ⟨⟨piece, hpiece, rfl⟩, hne⟩ := hs
  refine ⟨?_, piece, hpiece, rfl⟩
  intro hempty
  rw [hempty] at hne
  exact absurd hne (by decide)

/-- Claim C8: a pending transaction passes the sampler filter iff the filter
is absent, or its `from` address is an entry, or its `to` address is present
and an entry (logical OR); a transaction without `to` passes only via `from`;
the normalized addresses contain no uppercase character, and every filter
entry is the lowercased (trimmed) form of an input piece — so the comparison
is insensitive to the case of the configured addresses. -/
theorem C8_address_filter (tx : Transaction) (raw : String) :
    include_tx (normalize_pending_tx tx) none = true ∧
    (include_tx (normalize_pending_tx tx) (some (parse_filter_addresses raw)) = true ↔
      ((normalize_pending_tx tx).from_addr ∈ parse_filter_addresses raw ∨
        ∃ a, (normalize_pending_tx tx).to_addr = some a ∧
          a ∈ parse_filter_addresses raw)) ∧
    ((normalize_pending_tx tx).to_addr = none →
      (include_tx (normalize_pending_tx tx) (some (parse_filter_addresses raw)) = true ↔
        (normalize_pending_tx tx).from_addr ∈ parse_filter_addresses raw)) ∧
    (∀ c ∈ (normalize_pending_tx tx).from_addr.data, c.isUpper = false) ∧
    (∀ a, (normalize_pending_tx tx).to_addr = some a →
      ∀ c ∈ a.data, c.isUpper = false) ∧
    (∀ s ∈ parse_filter_addresses raw,
      s ≠ "" ∧ ∃ piece ∈ splitCommasS raw, s = lowerString (trimString piece)) := by
  refine ⟨rfl, ?_, ?_, ?_, ?_, mem_parse_filter_addresses raw⟩
  · unfold include_tx
    cases h : (normalize_pending_tx tx).to_addr <;> simp [h]
  · intro hnone
    unfold include_tx
    simp [hnone]
  · exact hex0xPad_not_upper 40 tx.from_addr
  · intro a ha
    have : ∃ x, tx.to_addr = some x ∧ address_to_lower_hex x = a := by
      simpa [normalize_pending_tx, Option.map_eq_some'] using ha
    obtain ⟨x, _, rfl⟩ := this
    exact hex0xPad_not_upper 40 x

/-! ## C6 / C7 — storage batch atomicity and idempotence -/

/-- An insert-or-ignore keeps every existing row. -/
theorem insert_tx_row_subset (rows : List NormalizedTx) (t : NormalizedTx) :
    ∀ r ∈ rows, r ∈ insert_tx_row rows t := by
  intro r hr
  unfold insert_tx_row
  split
  · exact hr
  · exact List.mem_append_left _ hr

/-- After an insert-or-ignore of `t`, some row carries `t`'s hash. -/
theorem insert_tx_row_hash (rows : List NormalizedTx) (t : NormalizedTx) :
    ∃ r ∈ insert_tx_row rows t, r.hash = t.hash := by
  unfold insert_tx_row
  split
  · next h =>
    obtain ⟨r, hr, heq⟩ := List.any_eq_true.mp h
    exact ⟨r, hr, of_decide_eq_true heq⟩
  · exact ⟨t, List.mem_append_right _ (List.mem_singleton_self t), rfl⟩

/-- A batch run that reaches its commit keeps every pre-existing row and
leaves a row for every batch element's hash. -/
theorem run_tx_batch_mem :
    ∀ (txs working : List NormalizedTx) (failAt : Option Nat) (i : Nat)
      (w' : List NormalizedTx), run_tx_batch working txs failAt i = some w' →
      (∀ r ∈ working, r ∈ w') ∧ (∀ t ∈ txs, ∃ r ∈ w', r.hash = t.hash) := by
  intro txs
  induction txs with
  | nil =>
    intro working failAt i w' h
    unfold run_tx_batch at h
    cases h
    exact ⟨fun r hr => hr, by simp⟩
  | cons t rest ih =>
    intro working failAt i w' h
    unfold run_tx_batch at h
    split at h
    · cases h
    · obtain ⟨hsub, hhash⟩ := ih (insert_tx_row working t) failAt (i + 1) w' h
      refine ⟨fun r hr => hsub r (insert_tx_row_subset working t r hr), ?_⟩
      intro t' ht'
      rcases List.mem_cons.mp ht' with rfl | hmem
      · obtain ⟨r, hr, hre⟩ := insert_tx_row_hash working t'
        exact ⟨r, hsub r hr, hre⟩
      · exact hhash t' hmem

/-- Claim C6: `insert_transactions` behaves as one atomic transaction — when
any row insert fails, the committed storage is returned unchanged (no row of
the batch visible), and on success every non-duplicate row of the batch is
visible (each batch hash is carried by some committed row, every pre-existing
row survives, and the blocks table is untouched). -/
theorem C6_insert_transactions_atomic (st : Storage) (txs : List NormalizedTx)
    (failAt : Option Nat) :
    ((insert_transactions st txs failAt).1.isSome →
      (insert_transactions st txs failAt).2 = st) ∧
    ((insert_transactions st txs failAt).1 = none →
      (∀ t ∈ txs, ∃ r ∈ (insert_transactions st txs failAt).2.transactions,
        r.hash = t.hash) ∧
      (∀ r ∈ st.transactions, r ∈ (insert_transactions st txs failAt).2.transactions) ∧
      (insert_transactions st txs failAt).2.blocks = st.blocks) := by
  unfold insert_transactions
  cases hrun : run_tx_batch st.transactions txs failAt 0 with
  | none => exact ⟨fun _ => rfl, by simp⟩
  | some working =>
    obtain ⟨hsub, hhash⟩ := run_tx_batch_mem txs st.transactions failAt 0 working hrun
    exact ⟨by simp, fun _ => ⟨hhash, hsub, rfl⟩⟩

/-- Claim C7: insertion is idempotent on primary keys — re-inserting a
transaction whose hash is already stored, or a block whose number is already
stored, succeeds and leaves the storage (row count and every field of every
row) unchanged. -/
theorem C7_idempotent_reinsert (st : Storage) (t : NormalizedTx) (b : BlockInfo) :
    ((∃ r ∈ st.transactions, r.hash = t.hash) →
      insert_transactions st [t] none = (none, st)) ∧
    ((∃ r ∈ st.blocks, r.number = b.number) →
      insert_block st b false = (none, st)) := by
  constructor
  · rintro ⟨r, hr, heq⟩
    have hany : st.transactions.any (fun r => r.hash = t.hash) = true :=
      List.any_eq_true.mpr ⟨r, hr, decide_eq_true heq⟩
    unfold insert_transactions run_tx_batch insert_tx_row
    rw [if_neg (by simp), if_pos hany]
    unfold run_tx_batch
    rfl
  · rintro ⟨r, hr, heq⟩
    have hany : st.blocks.any (fun r => r.number = b.number) = true :=
      List.any_eq_true.mpr ⟨r, hr, decide_eq_true heq⟩
    unfold insert_block
    rw [if_neg (by simp), if_pos hany]

/-! ## C3 — per-block failure handling in fetchRecentBlocks -/

/-- Claim C3 (counterexample): the claim says no single block's resolution
failure makes the whole operation return an error.  On a two-block window
where block `0`'s inline fetch fails at the RPC level (and block `1` resolves
fine on its own), `fetch_recent_blocks` returns that error instead of
skipping block `0` — the `?` operator propagates every per-call `Err`. -/
theorem C3_rpc_error_counterexample :
    fetch_recent_blocks exClientRpcFail 2 = Except.error (RpcError.rpc "boom") ∧
    resolve_block exClientRpcFail 1 =
      Except.ok (some (⟨1, h256_to_lower_hex 5, 1000⟩, [])) :=
  ⟨rfl, rfl⟩

/-- The skip-and-continue fold: when every block of the window resolves
without an RPC error, the fold returns exactly the blocks that resolved to
something, in order, skipping those that resolved to nothing. -/
theorem foldlM_resolve_ok (client : ChainClient) :
    ∀ (nums : List Nat) (acc : List (BlockInfo × List NormalizedTx)),
      (∀ num ∈ nums, ∃ r, resolve_block client num = Except.ok r) →
      nums.foldlM (fold_step client) acc
        = Except.ok
            (acc ++ nums.filterMap (fun num => (resolve_block client num).toOption.join)) := by
  intro nums
  induction nums with
  | nil =>
    intro acc _
    simp only [List.foldlM_nil, List.filterMap_nil, List.append_nil]
    rfl
  | cons n rest ih =>
    intro acc h
    obtain ⟨r, hr⟩ := h n (List.mem_cons_self n rest)
    have hrest : ∀ num ∈ rest, ∃ r, resolve_block client num = Except.ok r :=
      fun num hnum => h num (List.mem_cons_of_mem n hnum)
    have hjoin : (resolve_block client n).toOption.join = r := by
      rw [hr]
      rfl
    cases r with
    | some nb =>
      have hstep : fold_step client acc n = Except.ok (acc ++ [nb]) := by
        unfold fold_step
        rw [hr]
        rfl
      rw [List.foldlM_cons, hstep]
      show List.foldlM (fold_step client) (acc ++ [nb]) rest = _
      rw [ih (acc ++ [nb]) hrest, List.filterMap_cons, hjoin]
      simp
    | none =>
      have hstep : fold_step client acc n = Except.ok acc := by
        unfold fold_step
        rw [hr]
        rfl
      rw [List.foldlM_cons, hstep]
      show List.foldlM (fold_step client) acc rest = _
      rw [ih acc hrest, List.filterMap_cons, hjoin]

/-- Claim C3 (amended): when the head is known and every block of the fetched
window resolves without an RPC-level error, `fetch_recent_blocks` succeeds
and returns, in ascending order, exactly the blocks that resolved to
something — a block whose both paths yield nothing is skipped without
affecting the rest.  (An RPC-level error on any call, by contrast, aborts the
whole operation, as the counterexample shows.) -/
theorem C3_skip_unresolved_blocks (client : ChainClient) (count latest : Nat)
    (hc : count ≠ 0) (hl : client.get_block_number = Except.ok latest)
    (hok : ∀ num ∈ fetch_window latest count,
      ∃ r, resolve_block client num = Except.ok r) :
    fetch_recent_blocks client count =
      Except.ok ((fetch_window latest count).filterMap
        (fun num => (resolve_block client num).toOption.join)) := by
  unfold fetch_recent_blocks
  rw [if_neg hc, hl]
  show List.foldlM (fold_step client) [] (fetch_window latest count) = _
  rw [foldlM_resolve_ok client _ [] hok]
  simp

/-- Claim C3 (witness): on a two-block window whose block `0` is absent on
both paths, the absent block is skipped and block `1` is still returned. -/
theorem C3_skip_unresolved_blocks_witness :
    fetch_recent_blocks exClientSkip 2 =
      Except.ok [(⟨1, h256_to_lower_hex 5, 99⟩, [])] := by
  have h := C3_skip_unresolved_blocks exClientSkip 2 1 (by decide) rfl
    (by
      intro num hnum
      have h2 : num = 0 ∨ num = 1 := by
        simp [fetch_window] at hnum
        omega
      rcases h2 with rfl | rfl
      · exact ⟨none, rfl⟩
      · exact ⟨some (⟨1, h256_to_lower_hex 5, 99⟩, []), rfl⟩)
  rw [h]
  rfl

/-! ## C2 — windowed gas statistics -/

/-- Descending insertion produces a permutation. -/
theorem insertDesc_perm (x : Int) (l : List Int) :
    List.Perm (insertDesc x l) (x :: l) := by
  induction l with
  | nil => exact List.Perm.refl _
  | cons y ys ih =>
    unfold insertDesc
    split
    · exact List.Perm.refl _
    · exact List.Perm.trans (List.Perm.cons y ih) (List.Perm.swap x y ys)

/-- The descending sort is a permutation of its input. -/
theorem sortDesc_perm (l : List Int) : List.Perm (sortDesc l) l := by
  induction l with
  | nil => exact List.Perm.refl _
  | cons x xs ih =>
    show List.Perm (insertDesc x (sortDesc xs)) (x :: xs)
    exact List.Perm.trans (insertDesc_perm x (sortDesc xs)) (List.Perm.cons x ih)

/-- Descending insertion preserves descending sortedness. -/
theorem insertDesc_sorted (x : Int) (l : List Int)
    (h : l.Pairwise (fun a b => a ≥ b)) :
    (insertDesc x l).Pairwise (fun a b => a ≥ b) := by
  induction l with
  | nil => simp [insertDesc]
  | cons y ys ih =>
    rw [List.pairwise_cons] at h
    obtain ⟨hy, hys⟩ := h
    unfold insertDesc
    split
    · next hxy =>
      refine List.pairwise_cons.mpr ⟨?_, List.pairwise_cons.mpr ⟨hy, hys⟩⟩
      intro z hz
      rcases List.mem_cons.mp hz with rfl | hz
      · exact hxy
      · exact le_trans (hy z hz) hxy
    · next hxy =>
      have hyx : y ≥ x := le_of_lt (lt_of_not_ge hxy)
      refine List.pairwise_cons.mpr ⟨?_, ih hys⟩
      intro z hz
      have hz' := (insertDesc_perm x ys).mem_iff.mp hz
      rcases List.mem_cons.mp hz' with rfl | hzys
      · exact hyx
      · exact hy z hzys

/-- The descending sort is descending-sorted. -/
theorem sortDesc_sorted (l : List Int) :
    (sortDesc l).Pairwise (fun a b => a ≥ b) := by
  induction l with
  | nil => exact List.Pairwise.nil
  | cons x xs ih => exact insertDesc_sorted x (sortDesc xs) ih

/-- Under distinct entries, the descending sort is strictly descending. -/
theorem sortDesc_gt_of_nodup (l : List Int) (hnd : l.Nodup) :
    (sortDesc l).Pairwise (fun a b => a > b) :=
  ((sortDesc_sorted l).and ((sortDesc_perm l).nodup_iff.mpr hnd)).imp
    (fun h => lt_of_le_of_ne h.1 (Ne.symm h.2))

/-- In a strictly descending list, membership in the first `n` entries is
exactly membership with fewer than `n` strictly larger entries. -/
theorem mem_take_sorted_gt :
    ∀ (s : List Int) (n : Nat) (b : Int), s.Pairwise (fun a c => a > c) →
      (b ∈ s.take n ↔ b ∈ s ∧ s.countP (fun x => decide (b < x)) < n) := by
  intro s
  induction s with
  | nil => simp
  | cons x xs ih =>
    intro n b hp
    rw [List.pairwise_cons] at hp
    obtain ⟨hx, hxs⟩ := hp
    cases n with
    | zero => simp
    | succ n =>
      rw [List.take_succ_cons]
      by_cases hbx : b = x
      · subst hbx
        have hcount : (b :: xs).countP (fun x => decide (b < x)) = 0 := by
          rw [List.countP_eq_zero]
          intro a ha
          rcases List.mem_cons.mp ha with rfl | ha
          · simp
          · simp [not_lt_of_gt (hx a ha)]
        simp [hcount]
      · have hmem : b ∈ x :: xs ↔ b ∈ xs := by
          simp [List.mem_cons, hbx]
        by_cases hbxs : b ∈ xs
        · have hxb : b < x := hx b hbxs
          have hcount : (x :: xs).countP (fun y => decide (b < y))
              = xs.countP (fun y => decide (b < y)) + 1 :=
            List.countP_cons_of_pos _ _ (decide_eq_true hxb)
          rw [List.mem_cons]
          rw [ih n b hxs]
          constructor
          · rintro (rfl | ⟨hmem', hlt⟩)
            · exact absurd rfl hbx
            · exact ⟨List.mem_cons_of_mem x hmem', by omega⟩
          · rintro ⟨_, hlt⟩
            rw [hcount] at hlt
            exact Or.inr ⟨hbxs, by omega⟩
        · constructor
          · intro hmem'
            rcases List.mem_cons.mp hmem' with rfl | htake
            · exact absurd rfl hbx
            · exact absurd (List.take_subset n xs htake) hbxs
          · rintro ⟨hmem', _⟩
            exact absurd (hmem.mp hmem') hbxs

/-- The SQL `LIMIT n` prefix of the descending-sorted block numbers contains
exactly the members of rank below `n`, when block numbers are distinct. -/
theorem mem_top_block_numbers (blocks : List BlockInfo) (n : Nat) (b : Int)
    (hnd : (blocks.map (fun bi => bi.number)).Nodup) :
    b ∈ top_block_numbers blocks n ↔
      b ∈ blocks.map (fun bi => bi.number) ∧
        (blocks.map (fun bi => bi.number)).countP (fun x => decide (b < x)) < n := by
  unfold top_block_numbers
  have hperm := sortDesc_perm (blocks.map (fun bi => bi.number))
  rw [mem_take_sorted_gt (sortDesc (blocks.map (fun bi => bi.number))) n b
    (sortDesc_gt_of_nodup _ hnd), hperm.mem_iff, hperm.countP_eq]

/-- The SQL row guard coincides with the spec-side rank formulation when block
numbers are distinct. -/
theorem row_passes_eq_qualifies (blocks : List BlockInfo) (n : Nat)
    (t : NormalizedTx) (hnd : (blocks.map (fun bi => bi.number)).Nodup) :
    gas_stats_row_passes (top_block_numbers blocks n) t
      = gas_stats_qualifies (blocks.map (fun bi => bi.number)) n t := by
  unfold gas_stats_row_passes gas_stats_qualifies
  cases t.gas_price_wei with
  | none => rfl
  | some s =>
    cases t.block_number with
    | none => rfl
    | some b =>
      have h := mem_top_block_numbers blocks n b hnd
      unfold among_n_highest
      apply Bool.coe_iff_coe.mp
      simp only [Bool.and_eq_true, List.contains, List.elem_eq_mem,
        decide_eq_true_eq, h]

/-- A left fold of `min` lands in the folded list and bounds it below. -/
theorem foldl_min_spec :
    ∀ (vs : List Int) (v : Int),
      vs.foldl (fun a b => min a b) v ∈ v :: vs ∧
        ∀ x ∈ v :: vs, vs.foldl (fun a b => min a b) v ≤ x := by
  intro vs
  induction vs with
  | nil =>
    intro v
    refine ⟨List.mem_cons_self v [], ?_⟩
    intro x hx
    rw [List.mem_singleton.mp hx]
    exact le_refl _
  | cons w ws ih =>
    intro v
    rw [List.foldl_cons]
    obtain ⟨hmem, hle⟩ := ih (min v w)
    constructor
    · rcases List.mem_cons.mp hmem with heq | hmem'
      · rcases min_choice v w with hc | hc
        · rw [heq, hc]
          exact List.mem_cons_self v (w :: ws)
        · rw [heq, hc]
          exact List.mem_cons_of_mem v (List.mem_cons_self w ws)
      · exact List.mem_cons_of_mem v (List.mem_cons_of_mem w hmem')
    · intro x hx
      rcases List.mem_cons.mp hx with rfl | hx'
      · exact le_trans (hle _ (List.mem_cons_self _ _)) (min_le_left _ _)
      rcases List.mem_cons.mp hx' with rfl | hx''
      · exact le_trans (hle _ (List.mem_cons_self _ _)) (min_le_right _ _)
      · exact hle x (List.mem_cons_of_mem _ hx'')

/-- A left fold of `max` lands in the folded list and bounds it above. -/
theorem foldl_max_spec :
    ∀ (vs : List Int) (v : Int),
      vs.foldl (fun a b => max a b) v ∈ v :: vs ∧
        ∀ x ∈ v :: vs, x ≤ vs.foldl (fun a b => max a b) v := by
  intro vs
  induction vs with
  | nil =>
    intro v
    refine ⟨List.mem_cons_self v [], ?_⟩
    intro x hx
    rw [List.mem_singleton.mp hx]
    exact le_refl _
  | cons w ws ih =>
    intro v
    rw [List.foldl_cons]
    obtain ⟨hmem, hle⟩ := ih (max v w)
    constructor
    · rcases List.mem_cons.mp hmem with heq | hmem'
      · rcases max_choice v w with hc | hc
        · rw [heq, hc]
          exact List.mem_cons_self v (w :: ws)
        · rw [heq, hc]
          exact List.mem_cons_of_mem v (List.mem_cons_self w ws)
      · exact List.mem_cons_of_mem v (List.mem_cons_of_mem w hmem')
    · intro x hx
      rcases List.mem_cons.mp hx with rfl | hx'
      · exact le_trans (le_max_left _ _) (hle _ (List.mem_cons_self _ _))
      rcases List.mem_cons.mp hx' with rfl | hx''
      · exact le_trans (le_max_right _ _) (hle _ (List.mem_cons_self _ _))
      · exact hle x (List.mem_cons_of_mem _ hx'')

/-- Claim C2 (counterexample): the claim says a stored `gasPriceWei` string
containing any non-digit character contributes nothing.  `"5x"` contains a
non-digit, yet — because the SQL guard `GLOB '[0-9]*'` only constrains the
first character — the row qualifies and `gasStats` returns `min = max = 5`
(the cast of `"5x"`) instead of "no data". -/
theorem C2_gas_stats_counterexample :
    ("5x".data.any (fun c => !c.isDigit)) = true ∧
    (get_gas_stats exGasStorage 1).map (fun gs => (gs.min, gs.max)) = some (5, 5) :=
  ⟨by decide, rfl⟩

/-- Claim C2 (amended): `gasStats(n)` aggregates exactly the stored
transactions whose `blockNumber` is among the `n` highest block numbers
present, whose `gasPriceWei` is non-null, **begins with a digit**, and is at
most 18 characters long; each qualifying row contributes the integer value of
the longest leading digit run of its `gasPriceWei`; the result is `none`
exactly when no row qualifies, and otherwise `min`/`max`/`avg` are the
minimum, maximum and mean over exactly the qualifying rows' values. -/
theorem C2_gas_stats_amended (st : Storage) (n : Nat)
    (hnd : (st.blocks.map (fun bi => bi.number)).Nodup) :
    (get_gas_stats st n = none ↔ gas_stats_qualifying_values st n = []) ∧
    (∀ gs, get_gas_stats st n = some gs →
      gs.min ∈ gas_stats_qualifying_values st n ∧
      (∀ v ∈ gas_stats_qualifying_values st n, gs.min ≤ v) ∧
      gs.max ∈ gas_stats_qualifying_values st n ∧
      (∀ v ∈ gas_stats_qualifying_values st n, v ≤ gs.max) ∧
      gs.avg = ((gas_stats_qualifying_values st n).map (fun x => (x : ℚ))).sum
          / ((gas_stats_qualifying_values st n).length : ℚ)) := by
  have hfil : st.transactions.filter
        (gas_stats_row_passes (top_block_numbers st.blocks n))
      = st.transactions.filter
        (gas_stats_qualifies (st.blocks.map (fun bi => bi.number)) n) :=
    List.filter_congr (fun t _ => row_passes_eq_qualifies st.blocks n t hnd)
  unfold get_gas_stats gas_stats_qualifying_values
  rw [hfil]
  cases hvals : (st.transactions.filter
      (gas_stats_qualifies (st.blocks.map (fun bi => bi.number)) n)).map
    (fun t => sqlite_cast_integer (t.gas_price_wei.getD "")) with
  | nil => simp
  | cons v vs =>
    constructor
    · simp
    · intro gs hgs
      obtain rfl := (Option.some.injEq _ _).mp hgs.symm
      obtain ⟨hminmem, hminle⟩ := foldl_min_spec vs v
      obtain ⟨hmaxmem, hmaxle⟩ := foldl_max_spec vs v
      exact ⟨hminmem, hminle, hmaxmem, hmaxle, rfl⟩

/-- Claim C2 (witness): on the one-row storage whose `gasPriceWei` is `"5x"`,
a qualifying row exists and `gasStats` is not "no data". -/
theorem C2_gas_stats_amended_witness :
    get_gas_stats exGasStorage 1 ≠ none := by
  have h := C2_gas_stats_amended exGasStorage 1 (by decide)
  intro hnone
  exact absurd (h.1.mp hnone) (by decide)

/-! ## C4 / C5 / C10 — the pending sampler -/

/-- A flush call never changes `received`. -/
theorem flush_buffer_received (env : SampleEnv) (st : SampleState) :
    (flush_buffer env st).received = st.received := by
  unfold flush_buffer
  split <;> rfl

/-- A flush call never changes `fetched`. -/
theorem flush_buffer_fetched (env : SampleEnv) (st : SampleState) :
    (flush_buffer env st).fetched = st.fetched := by
  unfold flush_buffer
  split <;> rfl

/-- A flush call records exactly one more `insert_transactions` call, with the
current buffer. -/
theorem flush_buffer_flushes (env : SampleEnv) (st : SampleState) :
    (flush_buffer env st).flushes = st.flushes ++ [st.buffer] := by
  unfold flush_buffer
  split <;> rfl

/-- A failing flush adds one to `insert_errors` and leaves `inserted` alone. -/
theorem flush_buffer_fail (env : SampleEnv) (st : SampleState)
    (h : env.insertOk st.flushes.length = false) :
    (flush_buffer env st).insert_errors = st.insert_errors + 1 ∧
      (flush_buffer env st).inserted = st.inserted := by
  unfold flush_buffer
  rw [h]
  exact ⟨rfl, rfl⟩

/-- Fuel adequacy: any fuel of at least `max - received` gives the same
result, so `sample_loop ... max max initSampleState` is exactly the Rust
`while` loop — every iteration both consumes one unit of fuel and increments
`received`, and the loop ends on its own once `received` reaches `max`. -/
theorem sample_loop_fuel_sufficient (env : SampleEnv)
    (filters : Option (List String)) (m : Nat) :
    ∀ (fuel : Nat) (st : SampleState), m - st.received ≤ fuel →
      sample_loop env filters m (fuel + 1) st = sample_loop env filters m fuel st := by
  intro fuel
  induction fuel with
  | zero =>
    intro st h
    have hge : ¬ st.received < m := by omega
    unfold sample_loop
    rw [if_neg hge]
  | succ fuel ih =>
    intro st h
    unfold sample_loop
    by_cases hlt : st.received < m
    · rw [if_pos hlt, if_pos hlt]
      by_cases hdl : env.deadlineExpired st.received = true
      · rw [if_pos hdl, if_pos hdl]
      · rw [if_neg hdl, if_neg hdl]
        cases hr : env.recv st.received with
        | timeout => rfl
        | streamEnd => rfl
        | item hsh =>
          have hrec := process_hash_received env filters st
          dsimp only
          by_cases hge : (process_hash env filters st).received ≥ m
          · rw [if_pos hge, if_pos hge]
          · rw [if_neg hge, if_neg hge]
            exact ih (process_hash env filters st) (by omega)
    · rw [if_neg hlt, if_neg hlt]

/-- Under an environment that never times out and always delivers a hash, the
loop runs until `received` reaches `max`, provided it starts below `max` with
enough fuel. -/
theorem sample_loop_reaches_max (env : SampleEnv) (filters : Option (List String))
    (m : Nat) (hdead : ∀ i, env.deadlineExpired i = false)
    (hrecv : ∀ i, ∃ h, env.recv i = RecvOutcome.item h) :
    ∀ (fuel : Nat) (st : SampleState), st.received < m → m ≤ st.received + fuel →
      (sample_loop env filters m fuel st).received = m := by
  intro fuel
  induction fuel with
  | zero =>
    intro st h1 h2
    omega
  | succ fuel ih =>
    intro st h1 h2
    obtain ⟨h, hr⟩ := hrecv st.received
    have hrec := process_hash_received env filters st
    unfold sample_loop
    rw [if_pos h1, hdead st.received, hr]
    simp only [Bool.false_eq_true, if_false]
    split
    · next hge =>
      rw [hrec] at hge ⊢
      omega
    · next hlt =>
      rw [hrec] at hlt
      apply ih
      · omega
      · rw [hrec]
        omega

/-- Claim C4: in a session with `max = m > 0` whose duration budget never
elapses and whose stream never ends, the loop terminates with exactly `m`
received hashes, and the session then drains a non-empty remaining buffer by
exactly one more `insert_transactions` call (and makes no extra call when the
buffer is empty), returning its stats normally. -/
theorem C4_terminates_at_max_and_drains (env : SampleEnv) (m : Nat)
    (filters : Option (List String)) (hm : 0 < m)
    (hconn : env.connectOk = true) (hsub : env.subscribeOk = true)
    (hdead : ∀ i, env.deadlineExpired i = false)
    (hrecv : ∀ i, ∃ h, env.recv i = RecvOutcome.item h) :
    ∃ stats flushes, sample_pending env m filters = Except.ok (stats, flushes) ∧
      stats.received = m ∧
      ((sample_loop env filters m m initSampleState).buffer = [] →
        flushes = (sample_loop env filters m m initSampleState).flushes) ∧
      ((sample_loop env filters m m initSampleState).buffer ≠ [] →
        flushes = (sample_loop env filters m m initSampleState).flushes
          ++ [(sample_loop env filters m m initSampleState).buffer]) := by
  have hloop : (sample_loop env filters m m initSampleState).received = m :=
    sample_loop_reaches_max env filters m hdead hrecv m initSampleState hm
      (by simp [initSampleState])
  unfold sample_pending
  rw [hconn, hsub]
  simp only [Bool.not_true, Bool.false_eq_true, if_false]
  refine ⟨_, _, rfl, ?_, ?_, ?_⟩
  · split
    · exact hloop
    · rw [flush_buffer_received]
      exact hloop
  · intro hempty
    rw [if_pos (List.isEmpty_iff.mpr hempty)]
  · intro hne
    rw [if_neg (by simp [List.isEmpty_iff, hne]), flush_buffer_flushes]

/-- Claim C4 (witness): with `maxCount = 5`, an unlimited budget and an
endless stream, the session receives exactly 5 hashes and final-drains its
5-element buffer in one call. -/
theorem C4_terminates_at_max_and_drains_witness :
    ∃ stats flushes, sample_pending exEnvOk 5 none = Except.ok (stats, flushes) ∧
      stats.received = 5 ∧
      ((sample_loop exEnvOk none 5 5 initSampleState).buffer = [] →
        flushes = (sample_loop exEnvOk none 5 5 initSampleState).flushes) ∧
      ((sample_loop exEnvOk none 5 5 initSampleState).buffer ≠ [] →
        flushes = (sample_loop exEnvOk none 5 5 initSampleState).flushes
          ++ [(sample_loop exEnvOk none 5 5 initSampleState).buffer]) :=
  C4_terminates_at_max_and_drains exEnvOk 5 none (by decide) rfl rfl
    (fun _ => rfl) (fun i => ⟨i, rfl⟩)

/-- Claim C5: when the final-drain flush hits a storage failure, the session
still returns its stats normally, with `insertErrors` exactly one above and
`inserted` exactly equal to their pre-flush values. -/
theorem C5_drain_failure_counts (env : SampleEnv) (m : Nat)
    (filters : Option (List String))
    (hconn : env.connectOk = true) (hsub : env.subscribeOk = true)
    (hbuf : (sample_loop env filters m m initSampleState).buffer ≠ [])
    (hfail : env.insertOk
      (sample_loop env filters m m initSampleState).flushes.length = false) :
    ∃ stats flushes, sample_pending env m filters = Except.ok (stats, flushes) ∧
      stats.insert_errors
        = (sample_loop env filters m m initSampleState).insert_errors + 1 ∧
      stats.inserted = (sample_loop env filters m m initSampleState).inserted := by
  unfold sample_pending
  rw [hconn, hsub]
  simp only [Bool.not_true, Bool.false_eq_true, if_false]
  rw [if_neg (by simp [List.isEmpty_iff, hbuf])]
  obtain ⟨herr, hins⟩ :=
    flush_buffer_fail env (sample_loop env filters m m initSampleState) hfail
  exact ⟨_, _, rfl, herr, hins⟩

/-- Claim C5 (witness): a 3-hash session with always-failing storage drains
its non-empty buffer once, failing: `insertErrors` goes from 0 to 1 and
`inserted` stays 0. -/
theorem C5_drain_failure_counts_witness :
    ∃ stats flushes, sample_pending exEnvDrainFail 3 none = Except.ok (stats, flushes) ∧
      stats.insert_errors
        = (sample_loop exEnvDrainFail none 3 3 initSampleState).insert_errors + 1 ∧
      stats.inserted = (sample_loop exEnvDrainFail none 3 3 initSampleState).inserted :=
  C5_drain_failure_counts exEnvDrainFail 3 none rfl rfl (by decide) (by decide)

/-- One loop iteration preserves the counter ordering: each fetch is tied to
the hash just received, and every buffered row was fetched but not yet
counted as inserted. -/
theorem process_hash_inv (env : SampleEnv) (filters : Option (List String))
    (st : SampleState) (h1 : st.fetched ≤ st.received)
    (h2 : st.inserted + st.buffer.length ≤ st.fetched) :
    (process_hash env filters st).fetched ≤ (process_hash env filters st).received ∧
      (process_hash env filters st).inserted
          + (process_hash env filters st).buffer.length
        ≤ (process_hash env filters st).fetched := by
  unfold process_hash flush_buffer
  cases env.fetch st.received <;> dsimp only <;> (repeat' split) <;>
    simp_all [List.length_append] <;> omega

/-- The sampling loop preserves the counter ordering and never exceeds the
cap. -/
theorem sample_loop_inv (env : SampleEnv) (filters : Option (List String))
    (m : Nat) :
    ∀ (fuel : Nat) (st : SampleState), st.received ≤ m →
      st.fetched ≤ st.received → st.inserted + st.buffer.length ≤ st.fetched →
      (sample_loop env filters m fuel st).received ≤ m ∧
        (sample_loop env filters m fuel st).fetched
          ≤ (sample_loop env filters m fuel st).received ∧
        (sample_loop env filters m fuel st).inserted
            + (sample_loop env filters m fuel st).buffer.length
          ≤ (sample_loop env filters m fuel st).fetched := by
  intro fuel
  induction fuel with
  | zero =>
    intro st h0 h1 h2
    exact ⟨h0, h1, h2⟩
  | succ fuel ih =>
    intro st h0 h1 h2
    unfold sample_loop
    by_cases hlt : st.received < m
    · rw [if_pos hlt]
      by_cases hdl : env.deadlineExpired st.received = true
      · rw [if_pos hdl]
        exact ⟨h0, h1, h2⟩
      · rw [if_neg hdl]
        cases hr : env.recv st.received with
        | timeout => exact ⟨h0, h1, h2⟩
        | streamEnd => exact ⟨h0, h1, h2⟩
        | item h =>
          have hrec := process_hash_received env filters st
          obtain ⟨p1, p2⟩ := process_hash_inv env filters st h1 h2
          dsimp only
          by_cases hge : (process_hash env filters st).received ≥ m
          · rw [if_pos hge]
            exact ⟨by omega, p1, p2⟩
          · rw [if_neg hge]
            exact ih (process_hash env filters st) (by omega) p1 p2
    · rw [if_neg hlt]
      exact ⟨h0, h1, h2⟩

/-- Claim C10: every completed sampling session reports
`inserted ≤ fetched ≤ received ≤ maxCount`. -/
theorem C10_counter_ordering (env : SampleEnv) (m : Nat)
    (filters : Option (List String))
    (hconn : env.connectOk = true) (hsub : env.subscribeOk = true) :
    ∃ stats flushes, sample_pending env m filters = Except.ok (stats, flushes) ∧
      stats.inserted ≤ stats.fetched ∧ stats.fetched ≤ stats.received ∧
      stats.received ≤ m := by
  obtain ⟨h0, h1, h2⟩ := sample_loop_inv env filters m m initSampleState
    (by simp [initSampleState]) (by simp [initSampleState])
    (by simp [initSampleState])
  unfold sample_pending
  rw [hconn, hsub]
  simp only [Bool.not_true, Bool.false_eq_true, if_false]
  refine ⟨_, _, rfl, ?_, ?_, ?_⟩
  · dsimp only
    split
    · omega
    · unfold flush_buffer
      split <;> dsimp only <;> omega
  · dsimp only
    split
    · omega
    · rw [flush_buffer_received, flush_buffer_fetched]
      omega
  · dsimp only
    split
    · omega
    · rw [flush_buffer_received]
      omega

/-- Claim C10 (witness): the ordering holds on a concrete 5-hash session. -/
theorem C10_counter_ordering_witness :
    ∃ stats flushes, sample_pending exEnvOk 5 none = Except.ok (stats, flushes) ∧
      stats.inserted ≤ stats.fetched ∧ stats.fetched ≤ stats.received ∧
      stats.received ≤ 5 :=
  C10_counter_ordering exEnvOk 5 none rfl rfl

end MempoolSentinel
